import Mathlib

/-!
# go-stash: the Elasticsearch writer (stash/es/writer.go)

A shallow embedding of `stash/es/writer.go` and a verification of its
specification.

Conventions of the embedding.

* A Go `string` and a Go `[]byte` are both finite byte sequences; both are
  `Bytes = List UInt8`.  Go compares and indexes strings bytewise, and so do
  the definitions below.  `str` turns a literal into its UTF-8 bytes.
* A Go function that can end by returning, by `os.Exit` or by a run-time
  panic yields an `Outcome`; what it logged and which calls it made on its
  collaborators are recorded next to the outcome (`Effects`).
* The collaborators of `writer.go` that live in other modules
  (`os.ReadFile`, the Elasticsearch client, the go-zero chunk executor, the
  JSON decoder) are fields of `Env`: the functions of `writer.go` are
  defined for every behaviour of these.
* The two pure library functions whose results the claims depend on,
  `semver.Compare` (github.com/rogpeppe/go-internal/semver) and
  `json.Marshal` (encoding/json), are transcribed from the libraries.
-/

namespace GoStash

/-! ## Byte strings -/

/-- A Go `string` or `[]byte`: a finite sequence of bytes. -/
abbrev Bytes := List UInt8

/-- The UTF-8 bytes of a literal. -/
def str (s : String) : Bytes := s.toList.flatMap String.utf8EncodeChar

/-- The byte of an ASCII character constant such as `'v'`. -/
def ch (c : Char) : UInt8 := c.toNat.toUInt8

/-- The newline byte, `'\n'`. -/
def newline : UInt8 := 10

/-- Go's `s[a:b]` for `a ≤ b ≤ len(s)`. -/
def slice (s : Bytes) (a b : Nat) : Bytes := (s.drop a).take (b - a)

/-- Go's `x < y` on strings: bytewise lexicographic order. -/
def bytesLt : Bytes → Bytes → Bool
  | [], [] => false
  | [], _ :: _ => true
  | _ :: _, [] => false
  | a :: x, b :: y => if a < b then true else if b < a then false else bytesLt x y

/-- The length of the longest run of ASCII digits at the start of `v`: the
value of `i` after `for i < len(v) && '0' <= v[i] && v[i] <= '9' { i++ }`
started at `i = 0`. -/
def digitRun : Bytes → Nat
  | [] => 0
  | c :: v => if ch '0' ≤ c && c ≤ ch '9' then digitRun v + 1 else 0

/-! ## The imported package `github.com/rogpeppe/go-internal/semver`

`writer.go` imports this package and calls `semver.Compare`.  The package is
a dependency of the repository, not a part of it; the definitions of this
section transcribe its functions `parse`, `parseInt`, `parsePrerelease`, `parseBuild`,
`isIdentChar`, `isBadNum`, `isNum`, `compareInt`, `comparePrerelease`,
`nextIdent` and `Compare`. -/

namespace semver

/-- The parsed form of a semantic version string (`type parsed struct`). -/
structure parsed where
  major : Bytes := []
  minor : Bytes := []
  patch : Bytes := []
  short : Bytes := []
  prerelease : Bytes := []
  build : Bytes := []
  err : String := ""
  deriving DecidableEq, Repr

/-- Go `parseInt(v) (t, rest string, ok bool)`: a decimal number without a
leading zero at the start of `v`. -/
def parseInt (v : Bytes) : Bytes × Bytes × Bool :=
  match v with
  | [] => ([], [], false)
  | c :: rest =>
    if c < ch '0' || ch '9' < c then ([], [], false)
    else
      let i := 1 + digitRun rest
      if c == ch '0' && i != 1 then ([], [], false)
      else (v.take i, v.drop i, true)

/-- Go `isIdentChar(c)`. -/
def isIdentChar (c : UInt8) : Bool :=
  (ch 'A' ≤ c && c ≤ ch 'Z') || (ch 'a' ≤ c && c ≤ ch 'z') ||
    (ch '0' ≤ c && c ≤ ch '9') || c == ch '-'

/-- Go `isBadNum(v)`: all digits, longer than one byte, leading zero. -/
def isBadNum (v : Bytes) : Bool :=
  let i := digitRun v
  i == v.length && i > 1 && v.head? == some (ch '0')

/-- Go `isNum(v)`: `v` is all digits. -/
def isNum (v : Bytes) : Bool :=
  digitRun v == v.length

/-- The loop of `parsePrerelease`, run over the bytes `v[i:]`; `none` is the
early `return` of the zero values, `some (i, start)` the state at loop exit. -/
def parsePrereleaseLoop (v : Bytes) : Bytes → Nat → Nat → Option (Nat × Nat)
  | [], i, start => some (i, start)
  | c :: s, i, start =>
    if c == ch '+' then some (i, start)
    else if !isIdentChar c && c != ch '.' then none
    else if c == ch '.' then
      if start == i || isBadNum (slice v start i) then none
      else parsePrereleaseLoop v s (i + 1) (i + 1)
    else parsePrereleaseLoop v s (i + 1) start

/-- Go `parsePrerelease(v) (t, rest string, ok bool)`. -/
def parsePrerelease (v : Bytes) : Bytes × Bytes × Bool :=
  match v with
  | [] => ([], [], false)
  | c :: rest =>
    if c != ch '-' then ([], [], false)
    else
      match parsePrereleaseLoop v rest 1 1 with
      | none => ([], [], false)
      | some (i, start) =>
        if start == i || isBadNum (slice v start i) then ([], [], false)
        else (v.take i, v.drop i, true)

/-- The loop of `parseBuild`, run over the bytes `v[i:]`. -/
def parseBuildLoop : Bytes → Nat → Nat → Option (Nat × Nat)
  | [], i, start => some (i, start)
  | c :: s, i, start =>
    if !isIdentChar c && c != ch '.' then none
    else if c == ch '.' then
      if start == i then none
      else parseBuildLoop s (i + 1) (i + 1)
    else parseBuildLoop s (i + 1) start

/-- Go `parseBuild(v) (t, rest string, ok bool)`. -/
def parseBuild (v : Bytes) : Bytes × Bytes × Bool :=
  match v with
  | [] => ([], [], false)
  | c :: rest =>
    if c != ch '+' then ([], [], false)
    else
      match parseBuildLoop rest 1 1 with
      | none => ([], [], false)
      | some (i, start) =>
        if start == i then ([], [], false)
        else (v.take i, v.drop i, true)

/-- The tail of Go `parse` after the patch number: optional prerelease,
optional build, and nothing else. -/
def parseTail (p : parsed) (v : Bytes) : parsed × Bool :=
  let afterPre : Option (parsed × Bytes) :=
    if v.head? == some (ch '-') then
      let (t, rest, ok) := parsePrerelease v
      if !ok then none else some ({ p with prerelease := t }, rest)
    else some (p, v)
  match afterPre with
  | none => ({ p with err := "bad prerelease" }, false)
  | some (p, v) =>
    let afterBuild : Option (parsed × Bytes) :=
      if v.head? == some (ch '+') then
        let (t, rest, ok) := parseBuild v
        if !ok then none else some ({ p with build := t }, rest)
      else some (p, v)
    match afterBuild with
    | none => ({ p with err := "bad build" }, false)
    | some (p, v) =>
      if v != [] then ({ p with err := "junk on end" }, false)
      else (p, true)

/-- Go `parse(v string) (p parsed, ok bool)`.  A version must begin with the
byte `'v'`. -/
def parse (v : Bytes) : parsed × Bool :=
  match v with
  | [] => ({ err := "missing v prefix" }, false)
  | c :: v1 =>
    if c != ch 'v' then ({ err := "missing v prefix" }, false)
    else
      let (major, v, ok) := parseInt v1
      if !ok then ({ major := major, err := "bad major version" }, false)
      else
        match v with
        | [] => ({ major := major, minor := str "0", patch := str "0", short := str ".0.0" }, true)
        | c :: v2 =>
          if c != ch '.' then ({ major := major, err := "bad minor prefix" }, false)
          else
            let (minor, v, ok) := parseInt v2
            if !ok then ({ major := major, minor := minor, err := "bad minor version" }, false)
            else
              match v with
              | [] => ({ major := major, minor := minor, patch := str "0", short := str ".0" }, true)
              | c :: v3 =>
                if c != ch '.' then
                  ({ major := major, minor := minor, err := "bad patch prefix" }, false)
                else
                  let (patch, v, ok) := parseInt v3
                  if !ok then
                    ({ major := major, minor := minor, patch := patch, err := "bad patch version" },
                      false)
                  else parseTail { major := major, minor := minor, patch := patch } v

/-- Go `compareInt(x, y string) int`: numbers without leading zeros compare
by length, then bytewise. -/
def compareInt (x y : Bytes) : Int :=
  if x == y then 0
  else if x.length < y.length then -1
  else if x.length > y.length then 1
  else if bytesLt x y then -1
  else 1

/-- Go `nextIdent(x) (dx, rest string)`: split before the first `'.'`. -/
def nextIdent (x : Bytes) : Bytes × Bytes :=
  (x.takeWhile (fun c => c != ch '.'), x.dropWhile (fun c => c != ch '.'))

/-- The loop `for x != "" && y != ""` of `comparePrerelease` and the return
that follows it.  Every iteration shortens `x`, so `len(x) + 1` units of
fuel are never used up (`comparePrereleaseLoop_fuel`). -/
def comparePrereleaseLoop : Nat → Bytes → Bytes → Int
  | 0, x, _ => if x == [] then -1 else 1
  | fuel + 1, x, y =>
    if x != [] && y != [] then
      let x := x.drop 1
      let y := y.drop 1
      let (dx, x) := nextIdent x
      let (dy, y) := nextIdent y
      if dx != dy then
        let ix := isNum dx
        let iy := isNum dy
        if ix != iy then
          if ix then -1 else 1
        else if ix && dx.length < dy.length then -1
        else if ix && dx.length > dy.length then 1
        else if bytesLt dx dy then -1
        else 1
      else comparePrereleaseLoop fuel x y
    else if x == [] then -1 else 1

/-- Go `comparePrerelease(x, y string) int`. -/
def comparePrerelease (x y : Bytes) : Int :=
  if x == y then 0
  else if x == [] then 1
  else if y == [] then -1
  else comparePrereleaseLoop (x.length + 1) x y

/-- Go `semver.Compare(v, w string) int`: `0` if `v == w`, `-1` if `v < w`,
`+1` if `v > w`.  An invalid version is less than a valid one and all
invalid versions are equal. -/
def Compare (v w : Bytes) : Int :=
  let (pv, ok1) := parse v
  let (pw, ok2) := parse w
  if !ok1 && !ok2 then 0
  else if !ok1 then -1
  else if !ok2 then 1
  else
    let c := compareInt pv.major pw.major
    if c != 0 then c
    else
      let c := compareInt pv.minor pw.minor
      if c != 0 then c
      else
        let c := compareInt pv.patch pw.patch
        if c != 0 then c
        else comparePrerelease pv.prerelease pw.prerelease

end semver

/-! ## The standard-library functions used by `execute`

`unicode/utf8.DecodeRuneInString` and the string encoder of `encoding/json`
(`appendString`, called with `escapeHTML = true` by `json.Marshal`). -/

namespace utf8

/-- Go `utf8.RuneError`, U+FFFD. -/
def RuneError : Nat := 0xFFFD

/-- The width `first[b] & 7` that the table `first` gives a lead byte
`0xC2 ≤ b ≤ 0xF4`. -/
def leadSize (b : Nat) : Nat :=
  if b < 0xE0 then 2 else if b < 0xF0 then 3 else 4

/-- The lower bound `acceptRanges[first[b] >> 4].lo` for the second byte. -/
def acceptLo (b : Nat) : Nat :=
  if b == 0xE0 then 0xA0 else if b == 0xF0 then 0x90 else 0x80

/-- The upper bound `acceptRanges[first[b] >> 4].hi` for the second byte. -/
def acceptHi (b : Nat) : Nat :=
  if b == 0xED then 0x9F else if b == 0xF4 then 0x8F else 0xBF

/-- Go `utf8.DecodeRuneInString(s) (rune, int)`: the first rune of `s` and its
width in bytes; `(RuneError, 0)` for the empty string and `(RuneError, 1)`
for an encoding that is not well-formed UTF-8. -/
def DecodeRuneInString (s : Bytes) : Nat × Nat :=
  match s with
  | [] => (RuneError, 0)
  | s0 :: t =>
    let b0 := s0.toNat
    if b0 < 0x80 then (b0, 1)
    else if b0 < 0xC2 || 0xF4 < b0 then (RuneError, 1)
    else if s.length < leadSize b0 then (RuneError, 1)
    else
      match t with
      | [] => (RuneError, 1)
      | s1 :: t =>
        let b1 := s1.toNat
        if b1 < acceptLo b0 || acceptHi b0 < b1 then (RuneError, 1)
        else if leadSize b0 ≤ 2 then (((b0 &&& 0x1F) <<< 6) ||| (b1 &&& 0x3F), 2)
        else
          match t with
          | [] => (RuneError, 1)
          | s2 :: t =>
            let b2 := s2.toNat
            if b2 < 0x80 || 0xBF < b2 then (RuneError, 1)
            else if leadSize b0 ≤ 3 then
              (((b0 &&& 0x0F) <<< 12) ||| ((b1 &&& 0x3F) <<< 6) ||| (b2 &&& 0x3F), 3)
            else
              match t with
              | [] => (RuneError, 1)
              | s3 :: _ =>
                let b3 := s3.toNat
                if b3 < 0x80 || 0xBF < b3 then (RuneError, 1)
                else
                  (((b0 &&& 0x07) <<< 18) ||| ((b1 &&& 0x3F) <<< 12) |||
                    ((b2 &&& 0x3F) <<< 6) ||| (b3 &&& 0x3F), 4)

end utf8

/-- A Go `error` value that is not nil. -/
structure GoError where
  msg : String
  deriving DecidableEq, Repr

namespace json

/-- Go `htmlSafeSet[b]`: the ASCII bytes written as they are inside a JSON
string: all of 0x20..0x7F except the double quote, the ampersand, the two
angle brackets and the backslash. -/
def htmlSafe (b : UInt8) : Bool :=
  0x20 ≤ b.toNat && b.toNat < 0x80 && b.toNat != 0x22 && b.toNat != 0x26 &&
    b.toNat != 0x3C && b.toNat != 0x3E && b.toNat != 0x5C

/-- Go `hex[n]` for `hex = "0123456789abcdef"` and `n < 16`. -/
def hex (n : Nat) : UInt8 :=
  if n < 10 then (48 + n).toUInt8 else (87 + n).toUInt8

/-- The escape written for an ASCII byte outside `htmlSafeSet` (the `switch`
of `appendString`, as in Go 1.22 and later). -/
def escapeByte (b : UInt8) : Bytes :=
  if b.toNat == 0x5C || b.toNat == 0x22 then [0x5C, b]
  else if b.toNat == 0x08 then [0x5C, ch 'b']
  else if b.toNat == 0x0C then [0x5C, ch 'f']
  else if b.toNat == 0x0A then [0x5C, ch 'n']
  else if b.toNat == 0x0D then [0x5C, ch 'r']
  else if b.toNat == 0x09 then [0x5C, ch 't']
  else [0x5C, ch 'u', ch '0', ch '0', hex (b.toNat >>> 4), hex (b.toNat &&& 0xF)]

/-- The loop of Go `appendString(dst, src, escapeHTML = true)` over the bytes
not yet consumed.  The Go loop copies unescaped runs lazily (`start`); the
bytes written are the same.  Every step consumes at least one byte, so
`len(src)` units of fuel are never used up (`appendStringLoop_fuel`). -/
def appendStringLoop : Nat → Bytes → Bytes
  | 0, _ => []
  | _ + 1, [] => []
  | fuel + 1, b :: rest =>
    if b.toNat < 0x80 then
      (if htmlSafe b then [b] else escapeByte b) ++ appendStringLoop fuel rest
    else
      let (c, size) := utf8.DecodeRuneInString (b :: rest)
      if c == utf8.RuneError && size == 1 then
        str "\\ufffd" ++ appendStringLoop fuel rest
      else if c == 0x2028 || c == 0x2029 then
        [0x5C, ch 'u', ch '2', ch '0', ch '2', hex (c &&& 0xF)] ++
          appendStringLoop fuel ((b :: rest).drop size)
      else
        (b :: rest).take size ++ appendStringLoop fuel ((b :: rest).drop size)

/-- Go `appendString`: a JSON string literal for `src`. -/
def appendString (src : Bytes) : Bytes :=
  [0x22] ++ appendStringLoop src.length src ++ [0x22]

/-- A Go `map[string]string`, as the list of its entries in key order (the
order in which `json.Marshal` writes them). -/
abbrev StringMap := List (Bytes × Bytes)

/-- A Go `map[string]map[string]string`, as the list of its entries in key
order. -/
abbrev Meta := List (Bytes × StringMap)

/-- The members of a JSON object, separated by commas. -/
def joinMembers : List Bytes → Bytes
  | [] => []
  | [m] => m
  | m :: ms => m ++ [ch ','] ++ joinMembers ms

/-- The JSON text of a `map[string]string`. -/
def encodeStringMap (m : StringMap) : Bytes :=
  [0x7B] ++ joinMembers (m.map fun kv => appendString kv.1 ++ [ch ':'] ++ appendString kv.2) ++
    [0x7D]

/-- The JSON text of a `map[string]map[string]string`. -/
def encodeMeta (m : Meta) : Bytes :=
  [0x7B] ++ joinMembers (m.map fun kv => appendString kv.1 ++ [ch ':'] ++ encodeStringMap kv.2) ++
    [0x7D]

/-- Go `json.Marshal(m)` for `m : map[string]map[string]string`.  Encoding a
map of strings cannot fail: the error is always nil. -/
def Marshal (m : Meta) : Except GoError Bytes :=
  .ok (encodeMeta m)

end json

/-! ## writer.go: the version gate -/

/-- Go `const es8Version = "8.0.0"` (writer.go, line 17). -/
def es8Version : Bytes := str "8.0.0"

/-- Go `isSupportType` (writer.go, lines 129-132):
`return semver.Compare(version, es8Version) >= 0`. -/
def isSupportType (version : Bytes) : Bool :=
  decide (semver.Compare version es8Version ≥ 0)

/-! ## The collaborators of writer.go -/

/-- How a Go function ends: it returns, the process exits (`os.Exit`), or a
run-time panic unwinds it. -/
inductive Outcome (α : Type) where
  | returned (a : α)
  | exited (code : Nat)
  | panicked (msg : String)
  deriving DecidableEq, Repr

/-- A value of Go type `interface{}` as `encoding/json` decodes it: nil, a
`bool`, a `float64` (kept as its bit pattern), a `string`, a
`[]interface{}` or a `map[string]interface{}`. -/
inductive GoAny where
  | nil
  | bool (b : Bool)
  | float64 (bits : Nat)
  | string (s : Bytes)
  | slice (xs : List GoAny)
  | map (kvs : List (Bytes × GoAny))

/-- The name of the dynamic type of a decoded value, as a panic message
prints it. -/
def GoAny.typeName : GoAny → String
  | .nil => "nil"
  | .bool _ => "bool"
  | .float64 _ => "float64"
  | .string _ => "string"
  | .slice _ => "[]interface \x7b\x7d"
  | .map _ => "map[string]interface \x7b\x7d"

/-- A Go `map[string]interface{}` as the list of its entries; the nil map is
the empty list, and indexing is `List.lookup`. -/
abbrev RespMap := List (Bytes × GoAny)

/-- Go `elasticsearch.Config`, the fields `NewWriter` sets. -/
structure elasticsearch.Config where
  Addresses : List Bytes
  Username : Bytes
  Password : Bytes
  CACert : Bytes
  CompressRequestBody : Bool
  deriving DecidableEq, Repr

/-- Go `*elasticsearch.Client`: a handle on the configuration it was made
from. -/
structure elasticsearch.Client where
  config : elasticsearch.Config
  deriving DecidableEq, Repr

/-- Modelled from the spec: `config.ElasticSearchConf` is declared in
`stash/config`, which is not among the sources; the fields are the ones
`NewWriter` reads (host list, credentials, optional CA-certificate file
path, document-type tag, maximum chunk size in bytes). -/
structure ElasticSearchConf where
  Hosts : List Bytes
  Username : Bytes
  Password : Bytes
  Certs : Bytes
  DocType : Bytes
  MaxChunkBytes : Int
  deriving DecidableEq, Repr

/-- Go `*executors.ChunkExecutor` as made by
`executors.NewChunkExecutor(writer.execute, executors.WithChunkBytes(n))`:
the flush callback is the writer's own `execute`, the threshold is `n`. -/
structure ChunkExecutor where
  chunkBytes : Int
  deriving DecidableEq, Repr

/-- Go `valueWithIndex` (writer.go, lines 27-30). -/
structure valueWithIndex where
  index : Bytes
  val : Bytes
  deriving DecidableEq, Repr

/-- Go `Writer` (writer.go, lines 20-25). -/
structure Writer where
  docType : Bytes
  esVersion : Bytes
  client : elasticsearch.Client
  inserter : ChunkExecutor
  deriving DecidableEq, Repr

/-- The behaviour of the world outside writer.go.

* `ReadFile` is `os.ReadFile`: it returns the bytes read and an error, and
  when a read fails after the file was opened the bytes read so far come
  back together with the error (`return data, err`).
* `NewClient` is `elasticsearch.NewClient`.
* `CatNodes client` is `client.Cat.Nodes(client.Cat.Nodes.WithV(true))`
  followed by `resp.String()`, which puts the status of the response,
  `[<code> <text>]`, before its body.
* `Bulk client payload` is `client.Bulk(bytes.NewReader(payload), ...)`; it
  yields the body of the response.
* `Decode body` is `json.NewDecoder(resp.Body).Decode(&respMap)`.
* `Add inserter task size` is the error returned by
  `inserter.Add(task, size)`. -/
structure Env where
  ReadFile : Bytes → Bytes × Option GoError
  NewClient : elasticsearch.Config → Except GoError elasticsearch.Client
  CatNodes : elasticsearch.Client → Except GoError Bytes
  Bulk : elasticsearch.Client → Bytes → Except GoError Bytes
  Decode : Bytes → Except GoError RespMap
  Add : ChunkExecutor → valueWithIndex → Int → Option GoError

/-- A value handed to a logging call. -/
inductive LogValue where
  | string (s : Bytes)
  | error (e : GoError)
  | meta (m : json.Meta)
  | bytes (b : Bytes)
  | respMap (m : RespMap)

/-- One call of the logger: `logx.Errorf(format, args...)`,
`logx.Error(args...)`, or the message `logx.Must(err)` writes for a non-nil
`err` before it exits the process. -/
inductive LogEntry where
  | Errorf (format : String) (args : List LogValue)
  | Error (args : List LogValue)
  | Must (err : GoError)

/-- One call made on a collaborator. -/
inductive Call where
  | ReadFile (name : Bytes)
  | NewClient (cfg : elasticsearch.Config)
  | CatNodes (client : elasticsearch.Client)
  | NewChunkExecutor (chunkBytes : Int)
  | Add (task : valueWithIndex) (size : Int)
  | Bulk (client : elasticsearch.Client) (payload : Bytes)
  deriving DecidableEq

/-- What a run of a function of writer.go did: the log entries it wrote, the
calls it made, both in order, and how it ended. -/
structure Effects (α : Type) where
  logs : List LogEntry
  calls : List Call
  outcome : Outcome α

/-- The payloads submitted through `client.Bulk` during a run. -/
def Effects.bulkPayloads {α : Type} (e : Effects α) : List Bytes :=
  e.calls.filterMap fun c =>
    match c with
    | .Bulk _ payload => some payload
    | _ => none

/-- Go `strings.Split(s, sep)` for a one-byte separator: the pieces of `s`
between the separators; a string without separator is its only piece. -/
def Split (sep : UInt8) : Bytes → List Bytes
  | [] => [[]]
  | b :: s =>
    if b == sep then [] :: Split sep s
    else
      match Split sep s with
      | piece :: pieces => (b :: piece) :: pieces
      | [] => [[b]]

/-! ## writer.go -/

/-- The format of the log entry of writer.go, line 40. -/
def readCAFormat : String := "ERROR: Unable to  read CA from %q: %s"

/-- The format of the log entry of writer.go, line 65. -/
def unsupportedFormat : String := "do not support es version: %s, Only support >= %s"

/-- The format of the log entry of writer.go, line 97. -/
def encodeMetaFormat : String := "Cannot encode meta: %v"

/-- Lines 35-42 of `NewWriter`: the certificate, the log entries and the
calls of the optional read of the CA file.  The bytes `os.ReadFile` returns
are assigned to `cert` whether or not it also returns an error. -/
def readCert (env : Env) (c : ElasticSearchConf) : Bytes × List LogEntry × List Call :=
  if c.Certs != [] then
    let (cert, err) := env.ReadFile c.Certs
    match err with
    | some e =>
      (cert, [.Errorf readCAFormat [.string c.Certs, .error e]], [.ReadFile c.Certs])
    | none => (cert, [], [.ReadFile c.Certs])
  else ([], [], [])

/-- The `elasticsearch.Config` of writer.go, lines 43-49, for the
certificate `cert`. -/
def clientConfig (c : ElasticSearchConf) (cert : Bytes) : elasticsearch.Config :=
  { Addresses := c.Hosts, Username := c.Username, Password := c.Password,
    CACert := cert, CompressRequestBody := true }

/-- Go `NewWriter` (writer.go, lines 33-76).  `logx.Must(err)` logs and
exits the process when `err` is not nil, so the two `if err != nil` returns
of lines 51-57 are never taken. -/
def NewWriter (env : Env) (c : ElasticSearchConf) :
    Effects (Option Writer × Option GoError) :=
  let (cert, logs, calls) := readCert env c
  let cfg := clientConfig c cert
  let calls := calls ++ [.NewClient cfg]
  match env.NewClient cfg with
  | .error e => ⟨logs ++ [.Must e], calls, .exited 1⟩
  | .ok client =>
    let calls := calls ++ [.CatNodes client]
    match env.CatNodes client with
    | .error e => ⟨logs, calls, .returned (none, some e)⟩
    | .ok resp =>
      match Split newline resp with
      | [] => ⟨logs, calls, .panicked "index out of range [0] with length 0"⟩
      | version :: _ =>
        if !isSupportType version then
          ⟨logs ++ [.Errorf unsupportedFormat [.string version, .string es8Version]], calls,
            .exited 1⟩
        else
          let inserter : ChunkExecutor := { chunkBytes := c.MaxChunkBytes }
          let writer : Writer :=
            { docType := c.DocType, client := client, esVersion := version,
              inserter := inserter }
          ⟨logs, calls ++ [.NewChunkExecutor c.MaxChunkBytes], .returned (some writer, none)⟩

/-- Go `(*Writer).Write` (writer.go, lines 78-83):
`return w.inserter.Add(valueWithIndex{index, val}, len(val))`. -/
def Writer.Write (env : Env) (w : Writer) (index val : Bytes) : Effects (Option GoError) :=
  let task : valueWithIndex := { index := index, val := val }
  let size : Int := val.length
  ⟨[], [.Add task size], .returned (env.Add w.inserter task size)⟩

/-- The map `m` of writer.go, lines 92-94:
`map[string]map[string]string{"index": {"_index": pair.index}}`. -/
def actionMeta (index : Bytes) : json.Meta :=
  [(str "index", [(str "_index", index)])]

/-- The loop of `execute` (writer.go, lines 89-112) from the state
`(buf, logs)` on.  `marshal` is the encoder called at line 95; a record
whose metadata does not encode is logged and skipped (`continue`).  The
second test `if err != nil` (line 102) reads the `err` that was just found
nil, so its branch is never taken. -/
def executeLoop (marshal : json.Meta → Except GoError Bytes) :
    List valueWithIndex → Bytes → List LogEntry → Bytes × List LogEntry
  | [], buf, logs => (buf, logs)
  | pair :: vals, buf, logs =>
    let m := actionMeta pair.index
    match marshal m with
    | .error _ => executeLoop marshal vals buf (logs ++ [.Errorf encodeMetaFormat [.meta m]])
    | .ok meta =>
      let data := pair.val
      let meta := meta ++ [newline]
      let data := data ++ [newline]
      executeLoop marshal vals (buf ++ meta ++ data) logs

/-- The message of the run-time panic of the type assertion
`respMap["errors"].(bool)` (line 124) on a value of dynamic type `t`. -/
def assertBoolPanic (t : String) : String :=
  "interface conversion: interface \x7b\x7d is " ++ t ++ ", not bool"

/-- Go `(*Writer).execute` (writer.go, lines 85-127), for the encoder
`marshal` in the place of `json.Marshal`.  The batch holds the values that
`Write` added, all of type `valueWithIndex`.  `logx.Must` exits the process
on an error of the bulk call or of the decoder; the type assertion of line
124 has the one-result form, which panics unless the value is a `bool`. -/
def Writer.execute (marshal : json.Meta → Except GoError Bytes) (env : Env) (w : Writer)
    (vals : List valueWithIndex) : Effects Unit :=
  let (buf, logs) := executeLoop marshal vals [] []
  let calls : List Call := [.Bulk w.client buf]
  match env.Bulk w.client buf with
  | .error e => ⟨logs ++ [.Must e], calls, .exited 1⟩
  | .ok body =>
    match env.Decode body with
    | .error e => ⟨logs ++ [.Must e], calls, .exited 1⟩
    | .ok respMap =>
      match respMap.lookup (str "errors") with
      | some (.bool isErr) =>
        if isErr then ⟨logs ++ [.Error [.respMap respMap]], calls, .returned ()⟩
        else ⟨logs, calls, .returned ()⟩
      | some v => ⟨logs, calls, .panicked (assertBoolPanic v.typeName)⟩
      | none => ⟨logs, calls, .panicked (assertBoolPanic "nil")⟩

/-! ## The specification's vocabulary -/

/-- The action-metadata line of the specification for an index name: the
JSON serialization of the object `{"index": {"_index": name}}`. -/
def metaLine (name : Bytes) : Bytes :=
  json.encodeMeta (actionMeta name)

/-- The bulk payload of the specification for a batch: for each record, in
batch order, the metadata line, a newline, the body, a newline. -/
def bulkPayload (vals : List valueWithIndex) : Bytes :=
  vals.flatMap fun r => metaLine r.index ++ [newline] ++ r.val ++ [newline]

/-- The entry of one record under the encoder `marshal`: the encoded
metadata, a newline, the body, a newline; none when the metadata does not
encode. -/
def bulkEntry (marshal : json.Meta → Except GoError Bytes) (r : valueWithIndex) :
    Option Bytes :=
  match marshal (actionMeta r.index) with
  | .ok meta => some (meta ++ [newline] ++ r.val ++ [newline])
  | .error _ => none

/-- The log entry of one record under the encoder `marshal`: the entry of
line 97 when the metadata does not encode, none when it does. -/
def bulkEntryLog (marshal : json.Meta → Except GoError Bytes) (r : valueWithIndex) :
    Option LogEntry :=
  match marshal (actionMeta r.index) with
  | .ok _ => none
  | .error _ => some (.Errorf encodeMetaFormat [.meta (actionMeta r.index)])

/-- The newline-terminated lines of a payload, each without its newline:
the pieces between the newlines, but for what follows the last newline. -/
def payloadLines (p : Bytes) : List Bytes :=
  (Split newline p).dropLast

/-- Nothing follows the last newline of the payload: every line of it is
newline-terminated. -/
def newlineTerminated (p : Bytes) : Prop :=
  (Split newline p).getLast? = some []

/-- The layout the specification gives the payload `p` of the batch `vals`:
`p` consists of newline-terminated lines, two for each record, and for every
`i` line `2i` is the metadata line of record `i` and line `2i+1` is its
body. -/
def twoLinesPerRecord (vals : List valueWithIndex) (p : Bytes) : Prop :=
  newlineTerminated p ∧ (payloadLines p).length = 2 * vals.length ∧
    ∀ (i : Nat) (h : i < vals.length),
      (payloadLines p)[2 * i]? = some (metaLine vals[i].index) ∧
        (payloadLines p)[2 * i + 1]? = some vals[i].val

/-! ## Concrete worlds, for evaluating the code -/

/-- A configuration without a CA-certificate file. -/
def plainConf : ElasticSearchConf :=
  { Hosts := [str "http://127.0.0.1:9200"], Username := str "elastic", Password := str "secret",
    Certs := [], DocType := str "doc", MaxChunkBytes := 15728640 }

/-- Go `(*esapi.Response).String()` for a response whose body was read:
the status in brackets, `[<code> <text>]`, then a blank and the body when
the body is not empty.  This is the string `NewWriter` splits at line 63. -/
def responseString (status body : Bytes) : Bytes :=
  [ch '['] ++ status ++ [ch ']'] ++ (if body == [] then [] else ch ' ' :: body)

/-- A world in which every call succeeds: files are empty, the node listing
is `nodes`, every bulk request is answered with a body that decodes to
`respMap`, and every enqueue is accepted. -/
def worldWith (nodes : Bytes) (respMap : RespMap) : Env :=
  { ReadFile := fun _ => ([], none)
    NewClient := fun cfg => .ok { config := cfg }
    CatNodes := fun _ => .ok nodes
    Bulk := fun _ _ => .ok (str "response")
    Decode := fun _ => .ok respMap
    Add := fun _ _ _ => none }

/-- A backend of version 7.10.0: it answers the node listing with status
200 and a body whose first line is `7.10.0`, so that `resp.String()` is
`[200 OK] 7.10.0`, a newline, and the rest of the body. -/
def world7 : Env :=
  worldWith (responseString (str "200 OK") (str "7.10.0\nnode-1 mdi"))
    [(str "errors", .bool false)]

/-- A backend that answers a bulk request with a request-level error object,
which has no `errors` member. -/
def requestErrorWorld : Env :=
  worldWith (responseString (str "200 OK") (str "8.3.1"))
    [(str "error", .map [(str "type", .string (str "illegal_argument_exception"))]),
     (str "status", .float64 0x4079000000000000)]

/-- A backend that reports per-document failures. -/
def itemErrorsWorld : Env :=
  worldWith (responseString (str "200 OK") (str "8.3.1"))
    [(str "took", .float64 0), (str "errors", .bool true)]

/-- A writer, as `NewWriter` builds it. -/
def someWriter : Writer :=
  { docType := str "doc", esVersion := str "[200 OK] 8.3.1",
    client := { config := clientConfig plainConf [] },
    inserter := { chunkBytes := 15728640 } }

/-- An encoder that fails on the index name `bad` and is `json.Marshal`
elsewhere. -/
def failingMarshal (m : json.Meta) : Except GoError Bytes :=
  if m == actionMeta (str "bad") then .error { msg := "json: unsupported value" }
  else json.Marshal m

/-- A batch of one record whose body spans two lines. -/
def twoLineBatch : List valueWithIndex :=
  [{ index := str "logs", val := str "\x7b\"a\":1,\n\"b\":2\x7d" }]

/-- A batch of three one-line records. -/
def threeRecords : List valueWithIndex :=
  [{ index := str "logs", val := str "\x7b\"n\":1\x7d" },
   { index := str "bad", val := str "\x7b\"n\":2\x7d" },
   { index := str "audit", val := str "\x7b\"n\":3\x7d" }]

/-! ## Lemmas on the libraries -/

theorem acceptLo_ge (b : Nat) : 0x80 ≤ utf8.acceptLo b := by
  unfold utf8.acceptLo; split_ifs <;> omega

/-- Every byte of the rune decoded at a lead byte `≥ 0x80` is `≥ 0x80`. -/
theorem decodeRune_take_high (b : UInt8) (rest : Bytes) (hb : 0x80 ≤ b.toNat) :
    ∀ x ∈ (b :: rest).take (utf8.DecodeRuneInString (b :: rest)).2, 0x80 ≤ x.toNat := by
  have hlo := acceptLo_ge b.toNat
  rcases rest with _ | ⟨s1, _ | ⟨s2, _ | ⟨s3, t⟩⟩⟩ <;>
    simp only [utf8.DecodeRuneInString] <;>
    split_ifs <;>
    simp_all <;>
    omega

theorem newline_toNat : newline.toNat = 10 := by decide

theorem hex_ne_newline (n : Nat) (h : n < 16) : json.hex n ≠ newline := by
  interval_cases n <;> decide

theorem escapeByte_no_newline (b : UInt8) : newline ∉ json.escapeByte b := by
  have h1 : b.toNat >>> 4 < 16 := by
    have := b.toNat_lt
    rw [Nat.shiftRight_eq_div_pow]; omega
  have h2 : b.toNat &&& 0xF < 16 := by
    have := @Nat.and_le_right b.toNat 0xF; omega
  have h3 := hex_ne_newline _ h1
  have h4 := hex_ne_newline _ h2
  unfold json.escapeByte
  split_ifs with c1 <;> simp only [List.mem_cons, List.mem_singleton, List.not_mem_nil, or_false, not_or]
  · refine ⟨by decide, ?_⟩
    intro hb; subst hb; revert c1; decide
  all_goals
    refine ⟨by decide, ?_⟩
    try decide
  refine ⟨by decide, by decide, by decide, Ne.symm h3, Ne.symm h4⟩

theorem appendStringLoop_no_newline (fuel : Nat) (s : Bytes) :
    newline ∉ json.appendStringLoop fuel s := by
  induction fuel generalizing s with
  | zero => simp [json.appendStringLoop]
  | succ fuel ih =>
    rcases s with _ | ⟨b, rest⟩
    · simp [json.appendStringLoop]
    · unfold json.appendStringLoop
      split_ifs with hlow hsafe
      · simp only [List.mem_append, List.mem_singleton, not_or]
        refine ⟨?_, ih _⟩
        intro hb; subst hb; revert hsafe; decide
      · simp only [List.mem_append, not_or]
        exact ⟨escapeByte_no_newline b, ih _⟩
      · have hhigh := decodeRune_take_high b rest (by omega)
        generalize utf8.DecodeRuneInString (b :: rest) = r at hhigh ⊢
        obtain ⟨c, size⟩ := r
        dsimp only at hhigh ⊢
        split_ifs with h1 h2
        · simp only [List.mem_append, not_or]
          exact ⟨by decide, ih _⟩
        · simp only [List.mem_append, not_or]
          refine ⟨?_, ih _⟩
          have hc : c &&& 0xF < 16 := by
            have := @Nat.and_le_right c 0xF; omega
          have := hex_ne_newline _ hc
          simp only [List.mem_cons, List.mem_singleton, List.not_mem_nil, or_false, not_or]
          exact ⟨by decide, by decide, by decide, by decide, by decide, Ne.symm this⟩
        · simp only [List.mem_append, not_or]
          refine ⟨?_, ih _⟩
          intro hmem
          have := hhigh _ hmem
          rw [newline_toNat] at this
          omega

/-- A JSON string literal written by `appendString` holds no newline byte. -/
theorem appendString_no_newline (s : Bytes) : newline ∉ json.appendString s := by
  unfold json.appendString
  simp only [List.mem_append, List.mem_singleton, not_or]
  exact ⟨⟨by decide, appendStringLoop_no_newline _ _⟩, by decide⟩

/-- The metadata line is the text `{"index":{"_index":<name>}}`, with the
name as a JSON string literal. -/
theorem metaLine_eq (name : Bytes) :
    metaLine name =
      str "\x7b\"index\":\x7b\"_index\":" ++ json.appendString name ++ str "\x7d\x7d" := by
  have h1 : json.appendString (str "index") = str "\"index\"" := by decide
  have h2 : json.appendString (str "_index") = str "\"_index\"" := by decide
  have h3 : str "\x7b\"index\":\x7b\"_index\":" =
      [0x7B] ++ str "\"index\"" ++ [ch ':'] ++ ([0x7B] ++ str "\"_index\"" ++ [ch ':']) := by
    decide
  have h4 : str "\x7d\x7d" = [0x7D, 0x7D] := by decide
  simp only [metaLine, json.encodeMeta, actionMeta, json.encodeStringMap, json.joinMembers,
    List.map_cons, List.map_nil, h1, h2, h3, h4]
  simp only [List.append_assoc, List.cons_append, List.nil_append]

/-- The metadata line holds no newline byte. -/
theorem metaLine_no_newline (name : Bytes) : newline ∉ metaLine name := by
  rw [metaLine_eq]
  simp only [List.mem_append, not_or]
  exact ⟨⟨by decide, appendString_no_newline name⟩, by decide⟩

/-! ## The fuel of the two loops is enough -/

/-- A rune decoded from a non-empty string is at least one byte wide. -/
theorem decodeRune_size_pos (b : UInt8) (rest : Bytes) :
    1 ≤ (utf8.DecodeRuneInString (b :: rest)).2 := by
  rcases rest with _ | ⟨s1, _ | ⟨s2, _ | ⟨s3, t⟩⟩⟩ <;>
    simp only [utf8.DecodeRuneInString] <;>
    split_ifs <;>
    simp

/-- The fuel of `appendStringLoop` does not matter once it covers the
input: `len(src)` units are enough. -/
theorem appendStringLoop_fuel (f1 f2 : Nat) (s : Bytes) (h1 : s.length ≤ f1)
    (h2 : s.length ≤ f2) : json.appendStringLoop f1 s = json.appendStringLoop f2 s := by
  induction f1 generalizing f2 s with
  | zero =>
    have hs : s = [] := List.eq_nil_of_length_eq_zero (by omega)
    subst hs
    cases f2 <;> simp [json.appendStringLoop]
  | succ f1 ih =>
    rcases s with _ | ⟨b, rest⟩
    · cases f2 <;> simp [json.appendStringLoop]
    · cases f2 with
      | zero => simp at h2
      | succ f2 =>
        have hr1 : rest.length ≤ f1 := by simpa using h1
        have hr2 : rest.length ≤ f2 := by simpa using h2
        have hpos := decodeRune_size_pos b rest
        have hd1 : ∀ n, 1 ≤ n → ((b :: rest).drop n).length ≤ f1 := by
          intro n hn
          simp only [List.length_drop, List.length_cons]
          omega
        have hd2 : ∀ n, 1 ≤ n → ((b :: rest).drop n).length ≤ f2 := by
          intro n hn
          simp only [List.length_drop, List.length_cons]
          omega
        unfold json.appendStringLoop
        rw [ih f2 rest hr1 hr2]
        generalize utf8.DecodeRuneInString (b :: rest) = r at hpos
        obtain ⟨c, size⟩ := r
        simp only at hpos ⊢
        rw [ih f2 _ (hd1 size hpos) (hd2 size hpos)]

/-- The fuel of `comparePrereleaseLoop` does not matter once it exceeds the
length of `x`: `len(x) + 1` units are enough. -/
theorem comparePrereleaseLoop_fuel (f1 f2 : Nat) (x y : Bytes) (h1 : x.length < f1)
    (h2 : x.length < f2) :
    semver.comparePrereleaseLoop f1 x y = semver.comparePrereleaseLoop f2 x y := by
  induction f1 generalizing f2 x y with
  | zero => omega
  | succ f1 ih =>
    cases f2 with
    | zero => omega
    | succ f2 =>
      unfold semver.comparePrereleaseLoop
      rcases x with _ | ⟨a, x⟩
      · simp
      · have hlen : ((semver.nextIdent ((a :: x).drop 1)).2).length ≤ x.length := by
          simp only [semver.nextIdent, List.drop_succ_cons, List.drop_zero]
          exact (List.dropWhile_sublist _).length_le
        have hx1 : ((semver.nextIdent ((a :: x).drop 1)).2).length < f1 := by
          simp only [List.length_cons] at h1; omega
        have hx2 : ((semver.nextIdent ((a :: x).drop 1)).2).length < f2 := by
          simp only [List.length_cons] at h2; omega
        simp only
        generalize semver.nextIdent ((a :: x).drop 1) = nx at hx1 hx2
        obtain ⟨dx, x1⟩ := nx
        generalize semver.nextIdent (y.drop 1) = ny
        obtain ⟨dy, y1⟩ := ny
        simp only at hx1 hx2 ⊢
        rw [ih f2 x1 y1 hx1 hx2]

/-! ## Lemmas on `Split` and on the loop of `execute` -/

theorem Split_line (l rest : Bytes) (h : newline ∉ l) :
    Split newline (l ++ newline :: rest) = l :: Split newline rest := by
  induction l with
  | nil => simp [Split]
  | cons b l ih =>
    have hb : b ≠ newline := fun hb => h (by simp [hb])
    have hl : newline ∉ l := fun hl => h (by simp [hl])
    simp [Split, hb, ih hl]

/-- The pieces of a payload whose bodies hold no newline: the metadata line
and the body of every record in turn, and the empty piece after the last
newline. -/
theorem Split_bulkPayload (vals : List valueWithIndex) (hBody : ∀ r ∈ vals, newline ∉ r.val) :
    Split newline (bulkPayload vals) = (vals.flatMap fun r => [metaLine r.index, r.val]) ++ [[]] := by
  induction vals with
  | nil => simp [bulkPayload, Split]
  | cons r vals ih =>
    have hr : newline ∉ r.val := hBody r (by simp)
    have ih := ih (fun x hx => hBody x (by simp [hx]))
    have hsplit : bulkPayload (r :: vals) =
        metaLine r.index ++ newline :: (r.val ++ newline :: bulkPayload vals) := by
      simp [bulkPayload]
    rw [hsplit, Split_line _ _ (metaLine_no_newline _), Split_line _ _ hr, ih]
    simp

theorem flatMap_pair_length {α β : Type} (f g : α → β) (l : List α) :
    (l.flatMap fun r => [f r, g r]).length = 2 * l.length := by
  induction l with
  | nil => rfl
  | cons a l ih => simp [ih]; omega

theorem flatMap_pair_getElem? {α β : Type} (f g : α → β) (l : List α) (i : Nat) (h : i < l.length) :
    (l.flatMap fun r => [f r, g r])[2 * i]? = some (f l[i]) ∧
      (l.flatMap fun r => [f r, g r])[2 * i + 1]? = some (g l[i]) := by
  induction l generalizing i with
  | nil => simp at h
  | cons a l ih =>
    cases i with
    | zero => simp
    | succ i =>
      have hi : i < l.length := by simpa using h
      have := ih i hi
      have e1 : 2 * (i + 1) = (2 * i) + 1 + 1 := by omega
      have e2 : 2 * (i + 1) + 1 = (2 * i + 1) + 1 + 1 := by omega
      simp only [List.flatMap_cons, List.cons_append, List.nil_append, e1, e2,
        List.getElem?_cons_succ, List.getElem_cons_succ]
      exact this

theorem executeLoop_eq (marshal : json.Meta → Except GoError Bytes) (vals : List valueWithIndex)
    (buf : Bytes) (logs : List LogEntry) :
    executeLoop marshal vals buf logs =
      (buf ++ (vals.filterMap (bulkEntry marshal)).flatten,
        logs ++ vals.filterMap (bulkEntryLog marshal)) := by
  induction vals generalizing buf logs with
  | nil => simp [executeLoop]
  | cons r vals ih =>
    unfold executeLoop
    cases h : marshal (actionMeta r.index) with
    | error e => simp [ih, bulkEntry, bulkEntryLog, h]
    | ok meta => simp [ih, bulkEntry, bulkEntryLog, h]

/-- With `json.Marshal` every record has an entry and none is logged. -/
theorem executeLoop_Marshal (vals : List valueWithIndex) :
    executeLoop json.Marshal vals [] [] = (bulkPayload vals, []) := by
  rw [executeLoop_eq]
  have h1 : ∀ l : List valueWithIndex, (l.filterMap (bulkEntry json.Marshal)).flatten = bulkPayload l := by
    intro l
    induction l with
    | nil => rfl
    | cons r l ih =>
      simp [bulkEntry, json.Marshal, bulkPayload, metaLine] at ih ⊢
      exact ih
  have h2 : ∀ l : List valueWithIndex, l.filterMap (bulkEntryLog json.Marshal) = [] := by
    intro l
    induction l with
    | nil => rfl
    | cons r l ih => simp [bulkEntryLog, json.Marshal]
  simp [h1, h2]

/-- The one call `execute` makes: the bulk request for the entries of the
records whose metadata encodes. -/
theorem execute_calls (marshal : json.Meta → Except GoError Bytes) (env : Env) (w : Writer)
    (vals : List valueWithIndex) :
    (Writer.execute marshal env w vals).calls =
      [.Bulk w.client (vals.filterMap (bulkEntry marshal)).flatten] := by
  unfold Writer.execute
  rw [executeLoop_eq]
  simp only [List.nil_append]
  split <;> try rfl
  split <;> try rfl
  split <;> try rfl
  split <;> rfl

theorem execute_payloads (marshal : json.Meta → Except GoError Bytes) (env : Env) (w : Writer)
    (vals : List valueWithIndex) :
    (Writer.execute marshal env w vals).bulkPayloads =
      [(vals.filterMap (bulkEntry marshal)).flatten] := by
  simp [Effects.bulkPayloads, execute_calls]

theorem execute_Marshal_payloads (env : Env) (w : Writer) (vals : List valueWithIndex) :
    (Writer.execute json.Marshal env w vals).bulkPayloads = [bulkPayload vals] := by
  have h := executeLoop_Marshal vals
  rw [executeLoop_eq] at h
  rw [execute_payloads]
  simpa using congrArg Prod.fst h

/-- The version constant of writer.go is not a valid version of the semver
package: it lacks the leading `v`. -/
theorem parse_es8Version : (semver.parse es8Version).2 = false := by decide

theorem Compare_es8Version (V : Bytes) :
    semver.Compare V es8Version = 0 ∨ semver.Compare V es8Version = 1 := by
  unfold semver.Compare
  have h := parse_es8Version
  generalize semver.parse es8Version = pw at h
  obtain ⟨pw, ok2⟩ := pw
  generalize semver.parse V = pv
  obtain ⟨pv, ok1⟩ := pv
  simp only at h
  subst h
  cases ok1 <;> simp

/-! ## The claims -/

/-- C1, the code at the claim's own examples: `isSupportType` answers true
for the versions 7.17.0 and 7.9.9, which are below 8.0.0, as it does for
8.0.0 and 8.3.1; `semver.Compare` finds 7.17.0 and the constant 8.0.0 equal,
both being invalid for want of the leading `v`. -/
theorem isSupportType_accepts_old_versions :
    isSupportType (str "7.17.0") = true ∧ isSupportType (str "7.9.9") = true ∧
      isSupportType (str "8.0.0") = true ∧ isSupportType (str "8.3.1") = true ∧
      semver.Compare (str "7.17.0") es8Version = 0 ∧
      semver.Compare (str "v7.17.0") (str "v8.0.0") = -1 := by
  decide

/-- C2 as stated fails: for a batch of one record whose body holds a
newline the payload of `execute` has three lines, not two, and its second
line is not the body; so not every batch gives a payload of two lines per
record. -/
theorem execute_payload_three_lines :
    (Writer.execute json.Marshal world7 someWriter twoLineBatch).bulkPayloads =
        [str "\x7b\"index\":\x7b\"_index\":\"logs\"\x7d\x7d\n\x7b\"a\":1,\n\"b\":2\x7d\n"] ∧
      payloadLines (str "\x7b\"index\":\x7b\"_index\":\"logs\"\x7d\x7d\n\x7b\"a\":1,\n\"b\":2\x7d\n") =
        [str "\x7b\"index\":\x7b\"_index\":\"logs\"\x7d\x7d", str "\x7b\"a\":1,", str "\"b\":2\x7d"] ∧
      ¬ ∀ (env : Env) (w : Writer) (vals : List valueWithIndex),
          ∃ p, (Writer.execute json.Marshal env w vals).bulkPayloads = [p] ∧
            twoLinesPerRecord vals p := by
  refine ⟨by decide, by decide, ?_⟩
  intro h
  obtain ⟨p, hp, -, hlen, -⟩ := h world7 someWriter twoLineBatch
  have hp2 : (Writer.execute json.Marshal world7 someWriter twoLineBatch).bulkPayloads =
      [str "\x7b\"index\":\x7b\"_index\":\"logs\"\x7d\x7d\n\x7b\"a\":1,\n\"b\":2\x7d\n"] := by
    decide
  rw [hp2] at hp
  have hp3 := (List.cons.inj hp).1
  subst hp3
  revert hlen
  decide

/-- C2, amended: for every batch of N records whose bodies hold no newline
byte, the payload `execute` submits consists of exactly 2N newline-terminated
lines, and for every i line 2i is the metadata line of record i's index and
line 2i+1 is record i's body, in the order of the batch. -/
theorem execute_payload_lines (env : Env) (w : Writer) (vals : List valueWithIndex)
    (hBody : ∀ r ∈ vals, newline ∉ r.val) :
    ∃ p, (Writer.execute json.Marshal env w vals).bulkPayloads = [p] ∧
      twoLinesPerRecord vals p := by
  refine ⟨bulkPayload vals, execute_Marshal_payloads env w vals, ?_, ?_, ?_⟩
  · simp [newlineTerminated, Split_bulkPayload vals hBody]
  · simp only [payloadLines, Split_bulkPayload vals hBody, List.dropLast_concat]
    exact flatMap_pair_length (fun r : valueWithIndex => metaLine r.index)
      (fun r : valueWithIndex => r.val) vals
  · intro i h
    simp only [payloadLines, Split_bulkPayload vals hBody, List.dropLast_concat]
    exact flatMap_pair_getElem? (fun r : valueWithIndex => metaLine r.index)
      (fun r : valueWithIndex => r.val) vals i h

/-- C2, amended, at a batch of three one-line records. -/
theorem execute_payload_lines_witness :
    (∀ r ∈ threeRecords, newline ∉ r.val) ∧
      ∃ p, (Writer.execute json.Marshal world7 someWriter threeRecords).bulkPayloads = [p] ∧
        twoLinesPerRecord threeRecords p :=
  have hBody : ∀ r ∈ threeRecords, newline ∉ r.val := by
    intro r hr
    simp only [threeRecords, List.mem_cons, List.mem_singleton, List.not_mem_nil, or_false] at hr
    rcases hr with rfl | rfl | rfl <;> decide
  ⟨hBody, execute_payload_lines world7 someWriter threeRecords hBody⟩

/-- C3: for every batch the payload `execute` submits is the concatenation,
in batch order, of `meta(r.index) ++ "\n" ++ r.val ++ "\n"`, where
`meta(name)` is the JSON text `{"index":{"_index":<name>}}` that
`json.Marshal` gives the metadata object; the body bytes are copied as they
are; and the empty batch gives the empty payload. -/
theorem execute_payload_eq (env : Env) (w : Writer) (vals : List valueWithIndex) :
    (Writer.execute json.Marshal env w vals).bulkPayloads =
        [vals.flatMap fun r =>
          (str "\x7b\"index\":\x7b\"_index\":" ++ json.appendString r.index ++ str "\x7d\x7d") ++
            [newline] ++ r.val ++ [newline]] ∧
      (∀ name, json.Marshal (actionMeta name) =
        .ok (str "\x7b\"index\":\x7b\"_index\":" ++ json.appendString name ++ str "\x7d\x7d")) ∧
      (Writer.execute json.Marshal env w []).bulkPayloads = [[]] := by
  refine ⟨?_, ?_, ?_⟩
  · rw [execute_Marshal_payloads]
    simp only [bulkPayload, metaLine_eq]
  · intro name
    have := metaLine_eq name
    simp only [metaLine] at this
    simp only [json.Marshal, this]
  · rw [execute_Marshal_payloads]
    rfl

/-- C4: whatever the encoder, the payload `execute` submits is the in-order
concatenation of the entries of exactly the records whose metadata encoded;
a record whose metadata fails to encode is logged and left out, and the
records before and after it are kept: the payload is the one of the batch
without that record. -/
theorem execute_skips_failed_meta (marshal : json.Meta → Except GoError Bytes) (env : Env)
    (w : Writer) (before after : List valueWithIndex) (r : valueWithIndex) (e : GoError)
    (hFail : marshal (actionMeta r.index) = .error e) :
    (Writer.execute marshal env w (before ++ r :: after)).bulkPayloads =
        [((before ++ r :: after).filterMap (bulkEntry marshal)).flatten] ∧
      (Writer.execute marshal env w (before ++ r :: after)).bulkPayloads =
        [(before.filterMap (bulkEntry marshal)).flatten ++
          (after.filterMap (bulkEntry marshal)).flatten] ∧
      (Writer.execute marshal env w (before ++ r :: after)).bulkPayloads =
        (Writer.execute marshal env w (before ++ after)).bulkPayloads ∧
      LogEntry.Errorf encodeMetaFormat [.meta (actionMeta r.index)] ∈
        (Writer.execute marshal env w (before ++ r :: after)).logs := by
  have hr : bulkEntry marshal r = none := by simp [bulkEntry, hFail]
  refine ⟨execute_payloads _ _ _ _, ?_, ?_, ?_⟩
  · rw [execute_payloads]
    simp [List.filterMap_append, List.filterMap_cons, hr]
  · rw [execute_payloads, execute_payloads]
    simp [List.filterMap_append, List.filterMap_cons, hr]
  · have hlog : LogEntry.Errorf encodeMetaFormat [.meta (actionMeta r.index)] ∈
        (before ++ r :: after).filterMap (bulkEntryLog marshal) := by
      simp only [List.mem_filterMap]
      exact ⟨r, by simp, by simp [bulkEntryLog, hFail]⟩
    unfold Writer.execute
    rw [executeLoop_eq]
    simp only [List.nil_append]
    split
    · exact List.mem_append_left _ hlog
    · split
      · exact List.mem_append_left _ hlog
      · split
        · split
          · exact List.mem_append_left _ hlog
          · exact hlog
        · exact hlog
        · exact hlog

/-- C4 at a batch of three records whose second one does not encode: the
payload holds the first and the third. -/
theorem execute_skips_failed_meta_witness :
    failingMarshal (actionMeta (str "bad")) = .error { msg := "json: unsupported value" } ∧
      (Writer.execute failingMarshal world7 someWriter threeRecords).bulkPayloads =
        [str ("\x7b\"index\":\x7b\"_index\":\"logs\"\x7d\x7d\n\x7b\"n\":1\x7d\n" ++
          "\x7b\"index\":\x7b\"_index\":\"audit\"\x7d\x7d\n\x7b\"n\":3\x7d\n")] := by
  have h := execute_skips_failed_meta failingMarshal world7 someWriter
    [{ index := str "logs", val := str "\x7b\"n\":1\x7d" }]
    [{ index := str "audit", val := str "\x7b\"n\":3\x7d" }]
    { index := str "bad", val := str "\x7b\"n\":2\x7d" } { msg := "json: unsupported value" }
    rfl
  exact ⟨rfl, h.2.1.trans (by decide)⟩

/-- C5: `Write(index, body)` makes exactly one call, the enqueue of the
record `(index, body)` with the byte length of `body` as weight, and returns
what that enqueue returns: an error exactly when `Add` returns one.  It
submits no bulk request and writes no log entry. -/
theorem Write_enqueues_once (env : Env) (w : Writer) (index val : Bytes) :
    (Writer.Write env w index val).calls =
        [.Add { index := index, val := val } (val.length : Int)] ∧
      (Writer.Write env w index val).outcome =
        .returned (env.Add w.inserter { index := index, val := val } (val.length : Int)) ∧
      ((∃ e, (Writer.Write env w index val).outcome = .returned (some e)) ↔
        ∃ e, env.Add w.inserter { index := index, val := val } (val.length : Int) = some e) ∧
      (Writer.Write env w index val).bulkPayloads = [] ∧
      (Writer.Write env w index val).logs = [] := by
  refine ⟨rfl, rfl, ?_, rfl, rfl⟩
  simp [Writer.Write]

/-- C6: when the bulk response decodes to an object whose `errors` member is
the boolean `b`, `execute` returns normally, and it logs the whole response
as an error exactly when `b` is true; it logs nothing else. -/
theorem execute_logs_iff_errors (env : Env) (w : Writer) (vals : List valueWithIndex)
    (body : Bytes) (respMap : RespMap) (b : Bool)
    (hBulk : env.Bulk w.client (bulkPayload vals) = .ok body)
    (hDecode : env.Decode body = .ok respMap)
    (hErrors : respMap.lookup (str "errors") = some (.bool b)) :
    (Writer.execute json.Marshal env w vals).outcome = .returned () ∧
      (Writer.execute json.Marshal env w vals).logs =
        (if b then [.Error [.respMap respMap]] else []) ∧
      (LogEntry.Error [.respMap respMap] ∈ (Writer.execute json.Marshal env w vals).logs ↔
        b = true) := by
  unfold Writer.execute
  rw [executeLoop_Marshal]
  simp only [hBulk, hDecode, hErrors]
  cases b <;> simp

/-- C6 at a response with `errors` true and at one with `errors` false. -/
theorem execute_logs_iff_errors_witness :
    (Writer.execute json.Marshal itemErrorsWorld someWriter threeRecords).outcome = .returned () ∧
      (Writer.execute json.Marshal itemErrorsWorld someWriter threeRecords).logs =
        [.Error [.respMap [(str "took", .float64 0), (str "errors", .bool true)]]] ∧
      (Writer.execute json.Marshal world7 someWriter threeRecords).outcome = .returned () ∧
      (Writer.execute json.Marshal world7 someWriter threeRecords).logs = [] :=
  have h1 := execute_logs_iff_errors itemErrorsWorld someWriter threeRecords (str "response")
    [(str "took", .float64 0), (str "errors", .bool true)] true rfl rfl rfl
  have h2 := execute_logs_iff_errors world7 someWriter threeRecords (str "response")
    [(str "errors", .bool false)] false rfl rfl rfl
  ⟨h1.1, h1.2.1, h2.1, h2.2.1⟩

/-- C7, the code at a backend of version 7.10.0: the node listing comes back
as `[200 OK] 7.10.0` and further lines, the token `NewWriter` extracts is
`[200 OK] 7.10.0`, and `NewWriter` does not exit: it logs nothing, creates
the chunk executor and returns a writer with a nil error.  The bare token
`7.10.0` passes `isSupportType` as well. -/
theorem NewWriter_accepts_7_10_0 :
    world7.CatNodes { config := clientConfig plainConf [] } =
        .ok (str "[200 OK] 7.10.0\nnode-1 mdi") ∧
      Split newline (str "[200 OK] 7.10.0\nnode-1 mdi") =
        [str "[200 OK] 7.10.0", str "node-1 mdi"] ∧
      isSupportType (str "[200 OK] 7.10.0") = true ∧
      isSupportType (str "7.10.0") = true ∧
      (NewWriter world7 plainConf).outcome =
        .returned (some { docType := str "doc", esVersion := str "[200 OK] 7.10.0",
                          client := { config := clientConfig plainConf [] },
                          inserter := { chunkBytes := 15728640 } }, none) ∧
      (NewWriter world7 plainConf).calls =
        [.NewClient (clientConfig plainConf []),
         .CatNodes { config := clientConfig plainConf [] },
         .NewChunkExecutor 15728640] ∧
      (NewWriter world7 plainConf).logs.length = 0 := by
  refine ⟨rfl, ?_, ?_, ?_, ?_, ?_, ?_⟩ <;> decide

/-- C9: `isSupportType(V)` is true for every string `V`.  The constant
`"8.0.0"` is not a valid version for the semver package, so
`semver.Compare(V, "8.0.0")` is 0 or +1 for every `V`; and the version gate
of `NewWriter` rejects no backend: `NewWriter` never writes the log entry of
the unsupported-version branch, and it exits exactly when
`elasticsearch.NewClient` fails. -/
theorem isSupportType_always_true (V : Bytes) :
    (semver.parse es8Version).2 = false ∧
      (semver.Compare V es8Version = 0 ∨ semver.Compare V es8Version = 1) ∧
      isSupportType V = true ∧
      (∀ (env : Env) (c : ElasticSearchConf) (args : List LogValue),
        LogEntry.Errorf unsupportedFormat args ∉ (NewWriter env c).logs) ∧
      (∀ (env : Env) (c : ElasticSearchConf),
        (∃ code, (NewWriter env c).outcome = .exited code) ↔
          ∃ e, env.NewClient (clientConfig c (readCert env c).1) = .error e) := by
  have hsup : ∀ W, isSupportType W = true := by
    intro W
    unfold isSupportType
    rcases Compare_es8Version W with h | h <;> simp [h]
  refine ⟨parse_es8Version, Compare_es8Version V, hsup V, ?_, ?_⟩
  · intro env c args
    have hlogs : ∀ x ∈ (readCert env c).2.1, ∃ a, x = LogEntry.Errorf readCAFormat a := by
      unfold readCert
      split
      · rcases env.ReadFile c.Certs with ⟨cert, _ | e⟩ <;> simp
      · simp
    unfold NewWriter
    generalize readCert env c = rc at hlogs ⊢
    obtain ⟨cert, logs, calls⟩ := rc
    simp only at hlogs ⊢
    have hno : LogEntry.Errorf unsupportedFormat args ∉ logs := fun hx => by
      obtain ⟨a, ha⟩ := hlogs _ hx
      have : unsupportedFormat = readCAFormat := by injection ha
      revert this
      decide
    split
    · simp [hno]
    · split
      · exact hno
      · split
        · exact hno
        · simp [hsup, hno]
  · intro env c
    unfold NewWriter
    generalize readCert env c = rc
    obtain ⟨cert, logs, calls⟩ := rc
    simp only
    cases hNew : env.NewClient (clientConfig c cert) with
    | error e1 => simp
    | ok client1 =>
      simp only
      cases hCat : env.CatNodes client1 with
      | error e2 => simp
      | ok resp =>
        simp only
        split
        · simp
        · simp [hsup]

/-- C10: when the bulk response decodes to an object that has no `errors`
member, or whose `errors` member is not a boolean, `execute` ends in a
run-time panic; and `execute` returns normally only when the bulk call and
the decoder succeed and `errors` is present and boolean. -/
theorem execute_panics_without_bool_errors (env : Env) (w : Writer)
    (vals : List valueWithIndex) :
    (∀ body respMap, env.Bulk w.client (bulkPayload vals) = .ok body →
        env.Decode body = .ok respMap →
        (∀ b, respMap.lookup (str "errors") ≠ some (.bool b)) →
        ∃ msg, (Writer.execute json.Marshal env w vals).outcome = .panicked msg) ∧
      ((Writer.execute json.Marshal env w vals).outcome = .returned () ↔
        ∃ body respMap b, env.Bulk w.client (bulkPayload vals) = .ok body ∧
          env.Decode body = .ok respMap ∧ respMap.lookup (str "errors") = some (.bool b)) := by
  constructor
  · intro body respMap hBulk hDecode hErrors
    unfold Writer.execute
    rw [executeLoop_Marshal]
    simp only [hBulk, hDecode]
    split
    · rename_i isErr h
      exact absurd h (hErrors isErr)
    · exact ⟨_, rfl⟩
    · exact ⟨_, rfl⟩
  · unfold Writer.execute
    rw [executeLoop_Marshal]
    simp only
    cases hBulk : env.Bulk w.client (bulkPayload vals) with
    | error e =>
      simp only
      constructor
      · intro h; cases h
      · rintro ⟨body, respMap, b, h1, -, -⟩; cases h1
    | ok body =>
      simp only
      cases hDecode : env.Decode body with
      | error e =>
        simp only
        constructor
        · intro h; cases h
        · rintro ⟨body1, respMap, b, h1, h2, -⟩
          cases h1
          rw [hDecode] at h2
          cases h2
      | ok respMap =>
        simp only
        constructor
        · intro hret
          split at hret
          · rename_i isErr h
            exact ⟨body, respMap, isErr, rfl, hDecode, h⟩
          · cases hret
          · cases hret
        · rintro ⟨body1, respMap1, b, h1, h2, h3⟩
          cases h1
          rw [hDecode] at h2
          cases h2
          rw [h3]
          cases b <;> rfl

/-- C10 at a request-level error object, which has no `errors` member. -/
theorem execute_panics_without_bool_errors_witness :
    requestErrorWorld.Decode (str "response") =
        .ok [(str "error", .map [(str "type", .string (str "illegal_argument_exception"))]),
             (str "status", .float64 0x4079000000000000)] ∧
      ∃ msg, (Writer.execute json.Marshal requestErrorWorld someWriter threeRecords).outcome =
        .panicked msg :=
  ⟨rfl, (execute_panics_without_bool_errors requestErrorWorld someWriter threeRecords).1
    (str "response") _ rfl rfl
    (fun _ h => Option.noConfusion ((rfl : List.lookup (str "errors")
      [(str "error", GoAny.map [(str "type", .string (str "illegal_argument_exception"))]),
       (str "status", .float64 0x4079000000000000)] = none).symm.trans h))⟩

end GoStash
